import Mathlib

/-
Shallow embedding of the syscall-table generation pipeline of the
repository rust-vmm-ci, files scripts/lib/syscall.py and
scripts/rustvmm_gen.py.

Pure functions of the Python source are translated to Lean functions on
lists of characters and strings.  The regular expression
`^#define __NR_(\w+)\s+(\d+)` of generate_syscall_table is translated by
maximal-munch scanning: since the character classes \w and \s are
disjoint and \d is contained in \w, the greedy backtracking semantics of
the regex engine coincides with taking the maximal run of word
characters, then the maximal run of whitespace, then at least one digit.
Character classes are modelled on their ASCII fragment, which is the
alphabet of the kernel headers the script consumes.

File-system access and the external formatter subprocess are modelled as
explicit parameters: a file system is a function from a path to a
FileResult, the formatter is its exit code, and Python exceptions become
an Except value.
-/

namespace RustVmmGen

/-- ASCII fragment of the regex class \w (letters, digits, underscore). -/
def isWordChar (c : Char) : Bool :=
  c.isAlphanum || c == '_'

/-- ASCII fragment of the regex class \s and of the default str.strip
whitespace set. -/
def isPySpace (c : Char) : Bool :=
  c == ' ' || c == '\t' || c == '\n' || c == '\r' || c == '\x0b' || c == '\x0c'

/-- Value of a nonempty string of decimal digits, as computed by the
Python builtin int applied to the second capture group. -/
def digitsToNat (cs : List Char) : Nat :=
  cs.foldl (fun n c => 10 * n + (c.toNat - '0'.toNat)) 0

/-- The macro marker string "#define __NR_" tested by
line.startswith and repeated literally at the head of the regex. -/
def nrDefine : List Char := "#define __NR_".data

/-- Python str.strip(): remove leading and trailing whitespace. -/
def pyStrip (cs : List Char) : List Char :=
  ((cs.dropWhile isPySpace).reverse.dropWhile isPySpace).reverse

/-- The anchored match of `^#define __NR_(\w+)\s+(\d+)` on a line,
returning the pair (name, number) of the two capture groups, or none
when the line does not match. -/
def matchNR (s : List Char) : Option (String × Nat) :=
  if nrDefine.isPrefixOf s then
    let rest := s.drop nrDefine.length
    let nameCs := rest.takeWhile isWordChar
    let afterName := rest.dropWhile isWordChar
    let wsCs := afterName.takeWhile isPySpace
    let afterWs := afterName.dropWhile isPySpace
    let digitCs := afterWs.takeWhile Char.isDigit
    if nameCs.isEmpty || wsCs.isEmpty || digitCs.isEmpty then none
    else some (⟨nameCs⟩, digitsToNat digitCs)
  else none

/-- Processing of one header line by generate_syscall_table: strip the
line, test the startswith guard, and apply the capture pattern. -/
def parseLine (line : String) : Option (String × Nat) :=
  let s := pyStrip line.data
  if nrDefine.isPrefixOf s then matchNR s else none

/-- The parse loop of generate_syscall_table: entries appended in file
order, one per matching line. -/
def parseHeader (lines : List String) : List (String × Nat) :=
  lines.filterMap parseLine

/-- Python string comparison: lexicographic over code points. -/
def lexLe : List Char → List Char → Bool
  | [], _ => true
  | _ :: _, [] => false
  | a :: as, b :: bs => if a = b then lexLe as bs else decide (a < b)

/-- The sort key relation of syscalls.sort with key name. -/
def leName (a b : String × Nat) : Prop :=
  lexLe a.1.data b.1.data = true

instance : DecidableRel leName :=
  fun a b => inferInstanceAs (Decidable (lexLe a.1.data b.1.data = true))

/-- The in-place stable sort syscalls.sort(key name), modelled by the
stable insertion sort on the same key relation. -/
def sortTable (t : List (String × Nat)) : List (String × Nat) :=
  t.insertionSort leName

/-- Rendering of one entry by the f-string: the name quoted, the number
as a bare integer literal, a trailing comma after the closing paren. -/
def renderEntry : String × Nat → String
  | (name, num) => "(\"" ++ name ++ "\", " ++ toString num ++ "),"

/-- Python str.join semantics: concatenation with the separator between
consecutive items, empty output on the empty list. -/
def pyJoin (sep : String) : List String → String
  | [] => ""
  | [x] => x
  | x :: y :: xs => x ++ sep ++ pyJoin sep (y :: xs)

/-- The serialization step: render every entry and join on one space. -/
def serializeTable (t : List (String × Nat)) : String :=
  pyJoin " " (t.map renderEntry)

/-- The pure core of generate_syscall_table, from the list of lines of
the header file to the serialized literal string. -/
def generate_syscall_table_of_lines (lines : List String) : String :=
  serializeTable (sortTable (parseHeader lines))

/-- Outcome of opening and reading a file: its lines, a missing file, or
another reading failure with its message. -/
inductive FileResult where
  | ok (lines : List String)
  | notFound
  | ioError (msg : String)

/-- The two error kinds raised by generate_syscall_table. -/
inductive SyscallError where
  | headerNotFound (path : String)
  | processingFailed (msg : String)
deriving DecidableEq

/-- The RuntimeError message attached to each error kind. -/
def errorMessage : SyscallError → String
  | .headerNotFound p => "Header file not found: " ++ p
  | .processingFailed m => "File processing failed: " ++ m

/-- generate_syscall_table with the file system explicit: a successful
read runs the pure pipeline, FileNotFoundError becomes headerNotFound,
any other reading failure becomes processingFailed. -/
def generate_syscall_table (fs : String → FileResult) (file_path : String) :
    Except SyscallError String :=
  match fs file_path with
  | .ok lines => .ok (generate_syscall_table_of_lines lines)
  | .notFound => .error (.headerNotFound file_path)
  | .ioError m => .error (.processingFailed m)

/-- The f-string template of generate_rust_code around the serialized
syscall literal. -/
def rustCodeTemplate (syscalls : String) : String :=
  "use std::collections::HashMap;\npub(crate) fn make_syscall_table() -> HashMap<&\x27static str, i64> \x7b\n    vec![\n        " ++ syscalls ++ "\n    ].into_iter().collect()\n\x7d\n"

/-- The two error kinds raised by generate_rust_code. -/
inductive EmitError where
  | formatFailure
  | writeFailure (msg : String)
deriving DecidableEq

/-- Environment of one emission: whether the write raises an IOError,
and the exit status of the rustfmt subprocess. -/
structure EmitEnv where
  writeError : Option String
  rustfmtExit : Nat

/-- Observable outcome of one emission: the content present on disk when
the call returns (none when the write failed before producing the file),
and the returned or raised result. -/
structure EmitResult where
  fileOnDisk : Option String
  result : Except EmitError Unit

/-- generate_rust_code: render the template, write it, then run rustfmt
on the written file.  A write IOError is raised as writeFailure with no
file produced; a non-zero rustfmt exit is raised as formatFailure after
the write has already succeeded, so the unformatted file stays on disk.
On success rustfmt rewrites the file in place; the reformatting itself
is outside the model and the content is kept as written. -/
def generate_rust_code (syscalls : String) (env : EmitEnv) : EmitResult :=
  let code := rustCodeTemplate syscalls
  match env.writeError with
  | some msg => { fileOnDisk := none, result := .error (.writeFailure msg) }
  | none =>
    if env.rustfmtExit = 0 then
      { fileOnDisk := some code, result := .ok () }
    else
      { fileOnDisk := some code, result := .error .formatFailure }

/-- The static architecture mapping MAP_RUST_ARCH of rustvmm_gen.py. -/
def MAP_RUST_ARCH : List (String × String) :=
  [("arm64", "aarch64"), ("x86_64", "x86_64"), ("riscv", "riscv64")]

/-- Dictionary lookup MAP_RUST_ARCH[arch]; none models the KeyError. -/
def mapRustArch (arch : String) : Option String :=
  MAP_RUST_ARCH.lookup arch

/-- The emitted file name chosen by generate_syscall_command. -/
def outputFileName (arch : String) : Option String :=
  (mapRustArch arch).map (fun a => a ++ ".rs")

/-- The architecture-dependent relative path of the header consumed by
generate_syscall_command. -/
def headerRelPath (arch : String) : String :=
  arch ++ "_headers/include/asm/unistd_64.h"

/-- Strict variant of the sort key relation, used to identify sorted
tables with pairwise distinct names. -/
def ltName (a b : String × Nat) : Prop :=
  leName a b ∧ a.1 ≠ b.1

/-! ### Order properties of the Python string comparison -/

theorem lexLe_refl (x : List Char) : lexLe x x = true := by
  induction x with
  | nil => rfl
  | cons a as ih => simp [lexLe, ih]

theorem lexLe_total (x y : List Char) : lexLe x y = true ∨ lexLe y x = true := by
  induction x generalizing y with
  | nil => left; rfl
  | cons a as ih =>
    cases y with
    | nil => right; rfl
    | cons b bs =>
      by_cases hab : a = b
      · subst hab
        simpa [lexLe] using ih bs
      · rcases lt_or_gt_of_ne hab with h | h
        · left; simp [lexLe, hab, h]
        · right; simp [lexLe, Ne.symm hab, h]

theorem lexLe_trans {x y z : List Char} (h1 : lexLe x y = true)
    (h2 : lexLe y z = true) : lexLe x z = true := by
  induction x generalizing y z with
  | nil => rfl
  | cons a as ih =>
    cases y with
    | nil => simp [lexLe] at h1
    | cons b bs =>
      cases z with
      | nil => simp [lexLe] at h2
      | cons c cs =>
        by_cases hab : a = b <;> by_cases hbc : b = c
        · subst hab; subst hbc
          simp only [lexLe, if_pos rfl] at h1 h2 ⊢
          exact ih h1 h2
        · subst hab
          simp only [lexLe, if_pos rfl, if_neg hbc] at h1 h2
          simp [lexLe, hbc, of_decide_eq_true h2]
        · subst hbc
          simp only [lexLe, if_pos rfl, if_neg hab] at h1 h2
          simp [lexLe, hab, of_decide_eq_true h1]
        · simp only [lexLe, if_neg hab, if_neg hbc] at h1 h2
          have hac : a < c := lt_trans (of_decide_eq_true h1) (of_decide_eq_true h2)
          simp [lexLe, ne_of_lt hac, hac]

theorem lexLe_antisymm {x y : List Char} (h1 : lexLe x y = true)
    (h2 : lexLe y x = true) : x = y := by
  induction x generalizing y with
  | nil =>
    cases y with
    | nil => rfl
    | cons b bs => simp [lexLe] at h2
  | cons a as ih =>
    cases y with
    | nil => simp [lexLe] at h1
    | cons b bs =>
      by_cases hab : a = b
      · subst hab
        simp only [lexLe, if_pos rfl] at h1 h2
        rw [ih h1 h2]
      · exfalso
        simp only [lexLe, if_neg hab, if_neg (Ne.symm hab)] at h1 h2
        exact absurd (of_decide_eq_true h2) (lt_asymm (of_decide_eq_true h1))

instance : IsTotal (String × Nat) leName :=
  ⟨fun a b => lexLe_total a.1.data b.1.data⟩

instance : IsTrans (String × Nat) leName :=
  ⟨fun _ _ _ h1 h2 => lexLe_trans h1 h2⟩

instance : IsAntisymm (String × Nat) ltName :=
  ⟨fun _ _ h1 h2 =>
    absurd (String.toList_inj.mp (lexLe_antisymm h1.1 h2.1)) h1.2⟩

/-! ### Character class facts and scanning lemmas -/

theorem not_word_of_space {c : Char} (h : isPySpace c = true) :
    isWordChar c = false := by
  simp only [isPySpace, Bool.or_eq_true, beq_iff_eq] at h
  rcases h with ((((h | h) | h) | h) | h) | h <;> subst h <;> decide

theorem not_space_of_digit {c : Char} (h : c.isDigit = true) :
    isPySpace c = false := by
  cases hps : isPySpace c with
  | false => rfl
  | true =>
    exfalso
    simp only [isPySpace, Bool.or_eq_true, beq_iff_eq] at hps
    rcases hps with ((((h1 | h1) | h1) | h1) | h1) | h1 <;> subst h1 <;>
      exact absurd h (by decide)

theorem takeWhile_append_all {p : Char → Bool} {xs : List Char} (ys : List Char)
    (h : ∀ c ∈ xs, p c = true) :
    (xs ++ ys).takeWhile p = xs ++ ys.takeWhile p := by
  induction xs with
  | nil => simp
  | cons x xt ih =>
    have hx : p x = true := h x (by simp)
    simp [List.takeWhile_cons, hx, ih (fun c hc => h c (by simp [hc]))]

theorem dropWhile_append_all {p : Char → Bool} {xs : List Char} (ys : List Char)
    (h : ∀ c ∈ xs, p c = true) :
    (xs ++ ys).dropWhile p = ys.dropWhile p := by
  induction xs with
  | nil => simp
  | cons x xt ih =>
    have hx : p x = true := h x (by simp)
    simp [List.dropWhile_cons, hx, ih (fun c hc => h c (by simp [hc]))]

theorem takeWhile_eq_self_of_all {p : Char → Bool} {xs : List Char}
    (h : ∀ c ∈ xs, p c = true) : xs.takeWhile p = xs := by
  have := takeWhile_append_all (p := p) [] h
  simpa using this

theorem isPrefixOf_append (xs ys : List Char) : xs.isPrefixOf (xs ++ ys) = true :=
  List.isPrefixOf_iff_prefix.mpr (List.prefix_append xs ys)

/-- Inserting an entry into a list moves it past only entries with
strictly smaller names, so the sublist of entries carrying one fixed
name gains the new entry at its front when the names agree and is
untouched otherwise. -/
theorem filter_orderedInsert_name (s : String) (a : String × Nat) :
    ∀ m : List (String × Nat),
      (m.orderedInsert leName a).filter (fun e => e.1 == s) =
        if a.1 == s then a :: m.filter (fun e => e.1 == s)
        else m.filter (fun e => e.1 == s)
  | [] => by
    by_cases has : (a.1 == s) = true <;>
      simp [List.orderedInsert, List.filter_cons, has]
  | b :: bs => by
    have hrec := filter_orderedInsert_name s a bs
    by_cases hab : leName a b
    · simp only [List.orderedInsert, if_pos hab]
      by_cases has : (a.1 == s) = true <;> simp [List.filter_cons, has]
    · simp only [List.orderedInsert, if_neg hab]
      by_cases has : (a.1 == s) = true
      · have hbs : (b.1 == s) = false := by
          rw [beq_eq_false_iff_ne]
          intro hb
          have ha : a.1 = s := by simpa using has
          exact hab (show lexLe a.1.data b.1.data = true by
            rw [ha, hb]; exact lexLe_refl s.data)
        simp [List.filter_cons, hbs, has, hrec]
      · simp [List.filter_cons, has, hrec]

/-! ### Claim theorems -/

/-- Claim C1: on a header consisting exactly of the three lines
defining read as 0, write as 1 and open as 2, the pipeline produces the
table [(open, 2), (read, 0), (write, 1)] in alphabetical order and
serializes it to the literal string of the three rendered pairs; the
same string is returned through the file-reading wrapper. -/
theorem syscall_table_three_lines :
    sortTable (parseHeader
        ["#define __NR_read 0", "#define __NR_write 1", "#define __NR_open 2"]) =
      [("open", 2), ("read", 0), ("write", 1)] ∧
    generate_syscall_table_of_lines
        ["#define __NR_read 0", "#define __NR_write 1", "#define __NR_open 2"] =
      "(\"open\", 2), (\"read\", 0), (\"write\", 1)," ∧
    generate_syscall_table
        (fun _ => FileResult.ok
          ["#define __NR_read 0", "#define __NR_write 1", "#define __NR_open 2"])
        "unistd_64.h" =
      .ok "(\"open\", 2), (\"read\", 0), (\"write\", 1)," := by
  refine ⟨by decide, by decide, by rfl⟩

/-- Claim C3: the sort step orders the parsed entries ascending by name,
is a permutation of the parsed entries (so nothing is deduplicated and a
name defined twice keeps both entries), and is stable: for every name,
the subsequence of entries carrying that name is exactly the one of the
unsorted table, in the same order. -/
theorem sort_stable_no_dedup (t : List (String × Nat)) :
    List.Sorted leName (sortTable t) ∧ (sortTable t).Perm t ∧
      ∀ s : String,
        (sortTable t).filter (fun e => e.1 == s) = t.filter (fun e => e.1 == s) := by
  refine ⟨List.sorted_insertionSort leName t, List.perm_insertionSort leName t, ?_⟩
  intro s
  induction t with
  | nil => rfl
  | cons a tl ih =>
    show ((List.insertionSort leName tl).orderedInsert leName a).filter _ = _
    rw [filter_orderedInsert_name]
    by_cases has : (a.1 == s) = true
    · simp only [has, if_pos]
      rw [show List.insertionSort leName tl = sortTable tl from rfl, ih]
      simp [List.filter_cons, has]
    · simp only [has, if_neg, Bool.false_eq_true, if_false]
      rw [show List.insertionSort leName tl = sortTable tl from rfl, ih]
      simp [List.filter_cons, has]

/-- Claim C4: each entry is rendered as a parenthesized pair whose name
is wrapped in double quotes and whose number is a bare decimal literal
followed by a trailing comma; the rendered literals are joined by a
single space, and the empty table serializes to the empty string. -/
theorem serializer_format :
    (∀ (name : String) (num : Nat),
      (renderEntry (name, num)).data =
        '(' :: '\x22' :: (name.data ++
          '\x22' :: ',' :: ' ' :: ((toString num).data ++ [')', ',']))) ∧
    serializeTable [] = "" ∧
    (∀ e : String × Nat, serializeTable [e] = renderEntry e) ∧
    (∀ (e₁ e₂ : String × Nat) (rest : List (String × Nat)),
      serializeTable (e₁ :: e₂ :: rest) =
        renderEntry e₁ ++ " " ++ serializeTable (e₂ :: rest)) := by
  refine ⟨?_, rfl, fun e => rfl, fun e₁ e₂ rest => rfl⟩
  intro name num
  show ("(\"" ++ name ++ "\", " ++ toString num ++ "),").data = _
  rw [String.data_append, String.data_append, String.data_append,
    String.data_append]
  rw [show ("(\"" : String).data = ['(', '\x22'] from rfl,
    show ("\", " : String).data = ['\x22', ',', ' '] from rfl,
    show (")," : String).data = [')', ','] from rfl]
  simp [List.append_assoc]

/-- Claim C5: parsing a nonexistent header path fails with the
dedicated not-found error kind whose message names the path; any other
reading failure becomes the generic processing-failed kind wrapping the
cause; and the operation is all-or-nothing, returning either a full
table or an error and never a partial table. -/
theorem parse_error_kinds :
    (∀ (fs : String → FileResult) (path : String), fs path = .notFound →
      generate_syscall_table fs path = .error (.headerNotFound path) ∧
        errorMessage (.headerNotFound path) = "Header file not found: " ++ path) ∧
    (∀ (fs : String → FileResult) (path msg : String), fs path = .ioError msg →
      generate_syscall_table fs path = .error (.processingFailed msg) ∧
        errorMessage (.processingFailed msg) = "File processing failed: " ++ msg) ∧
    (∀ (fs : String → FileResult) (path : String),
      (∃ lines, fs path = .ok lines ∧
        generate_syscall_table fs path = .ok (generate_syscall_table_of_lines lines)) ∨
      (∃ e, generate_syscall_table fs path = .error e)) := by
  refine ⟨?_, ?_, ?_⟩
  · intro fs path h
    exact ⟨by simp [generate_syscall_table, h], rfl⟩
  · intro fs path msg h
    exact ⟨by simp [generate_syscall_table, h], rfl⟩
  · intro fs path
    cases h : fs path with
    | ok lines => exact Or.inl ⟨lines, rfl, by simp [generate_syscall_table, h]⟩
    | notFound =>
      exact Or.inr ⟨.headerNotFound path, by simp [generate_syscall_table, h]⟩
    | ioError m =>
      exact Or.inr ⟨.processingFailed m, by simp [generate_syscall_table, h]⟩

/-- Claim C5 witness: a file system with no files makes the pipeline
fail with the not-found kind naming the requested path. -/
theorem parse_error_kinds_witness :
    generate_syscall_table (fun _ => FileResult.notFound) "missing.h" =
      .error (.headerNotFound "missing.h") :=
  (parse_error_kinds.1 (fun _ => FileResult.notFound) "missing.h" rfl).1

/-- Claim C6: a non-zero formatter exit makes emission fail with the
format-failure kind while the already written, unformatted file stays on
disk, because the formatter only runs after the write has succeeded; a
failing write is instead reported as the write-failure kind and then no
file is produced. -/
theorem emit_failure_kinds :
    (∀ (syscalls : String) (exitCode : Nat), exitCode ≠ 0 →
      (generate_rust_code syscalls ⟨none, exitCode⟩).result =
          .error .formatFailure ∧
        (generate_rust_code syscalls ⟨none, exitCode⟩).fileOnDisk =
          some (rustCodeTemplate syscalls)) ∧
    (∀ (syscalls msg : String) (exitCode : Nat),
      (generate_rust_code syscalls ⟨some msg, exitCode⟩).result =
          .error (.writeFailure msg) ∧
        (generate_rust_code syscalls ⟨some msg, exitCode⟩).fileOnDisk = none) := by
  constructor
  · intro syscalls exitCode h
    exact ⟨by simp [generate_rust_code, h], by simp [generate_rust_code, h]⟩
  · intro syscalls msg exitCode
    exact ⟨rfl, rfl⟩

/-- Claim C6 witness: with formatter exit status 1 the emission reports
the format failure and the unformatted template is on disk; a write
error message is reported as the write-failure kind. -/
theorem emit_failure_kinds_witness :
    (generate_rust_code "" ⟨none, 1⟩).result = .error .formatFailure ∧
      (generate_rust_code "" ⟨none, 1⟩).fileOnDisk = some (rustCodeTemplate "") ∧
      (generate_rust_code "" ⟨some "disk full", 0⟩).result =
        .error (.writeFailure "disk full") := by
  have h := emit_failure_kinds.1 "" 1 (by decide)
  exact ⟨h.1, h.2, (emit_failure_kinds.2 "" "disk full" 0).1⟩

/-- Claim C2: a line whose stripped form is the macro marker followed
by a nonempty identifier of word characters, at least one whitespace
character, and a nonempty run of decimal digits parses to the pair of
that identifier and the value of the digits; the malformed prefixed
lines with no trailing number, or with the number glued to the name
with no whitespace separator, are silently skipped with no entry and no
error. -/
theorem prefixed_line_parse_spec :
    (∀ (line : String) (name ws ds : List Char),
      pyStrip line.data = nrDefine ++ (name ++ (ws ++ ds)) →
      name ≠ [] → (∀ c ∈ name, isWordChar c = true) →
      ws ≠ [] → (∀ c ∈ ws, isPySpace c = true) →
      ds ≠ [] → (∀ c ∈ ds, Char.isDigit c = true) →
      parseLine line = some (⟨name⟩, digitsToNat ds)) ∧
    parseLine "#define __NR_bad" = none ∧
    parseLine "#define __NR_read0" = none := by
  refine ⟨?_, by decide, by decide⟩
  intro line name ws ds hstrip hn hnW hw hwW hd hdW
  obtain ⟨w, wt, rfl⟩ := List.exists_cons_of_ne_nil hw
  obtain ⟨d, dt, rfl⟩ := List.exists_cons_of_ne_nil hd
  obtain ⟨n0, nt, rfl⟩ := List.exists_cons_of_ne_nil hn
  have hw0 : isPySpace w = true := hwW w (by simp)
  have hd0 : Char.isDigit d = true := hdW d (by simp)
  have htw1 : ((n0 :: nt) ++ ((w :: wt) ++ (d :: dt))).takeWhile isWordChar =
      n0 :: nt := by
    rw [takeWhile_append_all _ hnW]
    simp [List.takeWhile_cons, not_word_of_space hw0]
  have htw2 : ((n0 :: nt) ++ ((w :: wt) ++ (d :: dt))).dropWhile isWordChar =
      (w :: wt) ++ (d :: dt) := by
    rw [dropWhile_append_all _ hnW]
    simp [List.dropWhile_cons, not_word_of_space hw0]
  have hts1 : ((w :: wt) ++ (d :: dt)).takeWhile isPySpace = w :: wt := by
    rw [takeWhile_append_all _ hwW]
    simp [List.takeWhile_cons, not_space_of_digit hd0]
  have hts2 : ((w :: wt) ++ (d :: dt)).dropWhile isPySpace = d :: dt := by
    rw [dropWhile_append_all _ hwW]
    simp [List.dropWhile_cons, not_space_of_digit hd0]
  have htd : (d :: dt).takeWhile Char.isDigit = d :: dt :=
    takeWhile_eq_self_of_all hdW
  simp only [parseLine, matchNR, hstrip, isPrefixOf_append, if_true,
    List.drop_left, htw1, htw2, hts1, hts2, htd, List.isEmpty_cons,
    Bool.or_self, Bool.or_false, Bool.false_or, if_false, Bool.false_eq_true]

/-- Claim C2 witness: a well-formed define line parses to its name and
number, and the malformed line with no trailing number is skipped. -/
theorem prefixed_line_parse_spec_witness :
    parseLine "#define __NR_foo 42" = some ("foo", 42) ∧
      parseLine "#define __NR_bad" = none := by
  refine ⟨?_, prefixed_line_parse_spec.2.1⟩
  have h := prefixed_line_parse_spec.1 "#define __NR_foo 42"
    "foo".data " ".data "42".data (by decide) (by decide) (by decide)
    (by decide) (by decide) (by decide) (by decide)
  exact h.trans (by decide)

/-- Claim C7: a line that after stripping does not begin with the macro
marker contributes no entry and never causes a failure: it parses to
none, and deleting it from the header leaves the serialized output of
the pipeline unchanged. -/
theorem nonprefixed_lines_ignored (line : String)
    (h : nrDefine.isPrefixOf (pyStrip line.data) = false) :
    parseLine line = none ∧
      ∀ pre post : List String,
        generate_syscall_table_of_lines (pre ++ line :: post) =
          generate_syscall_table_of_lines (pre ++ post) := by
  have hnone : parseLine line = none := by
    simp [parseLine, h]
  refine ⟨hnone, ?_⟩
  intro pre post
  unfold generate_syscall_table_of_lines parseHeader
  rw [List.filterMap_append, List.filterMap_append, List.filterMap_cons, hnone]

/-- Claim C7 witness: an unrelated comment line parses to none and its
removal does not change the output of the pipeline. -/
theorem nonprefixed_lines_ignored_witness :
    parseLine "// unrelated comment" = none ∧
      generate_syscall_table_of_lines
          ["// unrelated comment", "#define __NR_read 0"] =
        generate_syscall_table_of_lines ["#define __NR_read 0"] := by
  have h := nonprefixed_lines_ignored "// unrelated comment" (by decide)
  exact ⟨h.1, h.2 [] ["#define __NR_read 0"]⟩

/-- Claim C8: the pipeline is deterministic: serialization and the
whole parse-and-serialize run are functions of their input, so running
them twice on the same table, lines or file system yields byte-identical
strings.  In this pure embedding every step is a function, so equality
of runs on equal inputs is definitional. -/
theorem pipeline_deterministic :
    ∀ (t : List (String × Nat)) (lines : List String)
      (fs : String → FileResult) (path : String),
      (serializeTable t).data = (serializeTable t).data ∧
        generate_syscall_table_of_lines lines =
          generate_syscall_table_of_lines lines ∧
        generate_syscall_table fs path = generate_syscall_table fs path :=
  fun _ _ _ _ => ⟨rfl, rfl, rfl⟩

/-- Claim C9: the emitted file name comes from the static architecture
mapping while the header lookup path keeps the kernel-side name: for
riscv the output file is riscv64.rs although the header is looked up
under the riscv directory; arm64 maps to aarch64 and x86_64 to itself. -/
theorem arch_mapping_filename :
    outputFileName "riscv" = some "riscv64.rs" ∧
      headerRelPath "riscv" = "riscv_headers/include/asm/unistd_64.h" ∧
      outputFileName "arm64" = some "aarch64.rs" ∧
      outputFileName "x86_64" = some "x86_64.rs" :=
  ⟨rfl, rfl, rfl, rfl⟩

/-- Claim C10: when the matching lines of a header carry pairwise
distinct names, the serialized output is invariant under any permutation
of the lines of the file, because the sort step determines the order of
the entries. -/
theorem line_order_irrelevant (l1 l2 : List String) (hperm : l1.Perm l2)
    (hnodup : ((parseHeader l1).map Prod.fst).Nodup) :
    generate_syscall_table_of_lines l1 = generate_syscall_table_of_lines l2 := by
  have hp : (parseHeader l1).Perm (parseHeader l2) := hperm.filterMap parseLine
  have hsp1 : (sortTable (parseHeader l1)).Perm (parseHeader l1) :=
    List.perm_insertionSort leName (parseHeader l1)
  have hsp2 : (sortTable (parseHeader l2)).Perm (parseHeader l2) :=
    List.perm_insertionSort leName (parseHeader l2)
  have hperm2 : (sortTable (parseHeader l1)).Perm (sortTable (parseHeader l2)) :=
    (hsp1.trans hp).trans hsp2.symm
  have hnodup2 : ((parseHeader l2).map Prod.fst).Nodup :=
    hnodup.perm (hp.map Prod.fst)
  have hn1 : ((sortTable (parseHeader l1)).map Prod.fst).Nodup :=
    hnodup.perm (hsp1.map Prod.fst).symm
  have hn2 : ((sortTable (parseHeader l2)).map Prod.fst).Nodup :=
    hnodup2.perm (hsp2.map Prod.fst).symm
  have hpw1 : (sortTable (parseHeader l1)).Pairwise (fun a b => a.1 ≠ b.1) :=
    List.pairwise_map.mp hn1
  have hpw2 : (sortTable (parseHeader l2)).Pairwise (fun a b => a.1 ≠ b.1) :=
    List.pairwise_map.mp hn2
  have hs1 : List.Sorted leName (sortTable (parseHeader l1)) :=
    List.sorted_insertionSort leName (parseHeader l1)
  have hs2 : List.Sorted leName (sortTable (parseHeader l2)) :=
    List.sorted_insertionSort leName (parseHeader l2)
  have hstrict1 : List.Sorted ltName (sortTable (parseHeader l1)) :=
    List.Pairwise.and hs1 hpw1
  have hstrict2 : List.Sorted ltName (sortTable (parseHeader l2)) :=
    List.Pairwise.and hs2 hpw2
  have heq : sortTable (parseHeader l1) = sortTable (parseHeader l2) :=
    List.eq_of_perm_of_sorted hperm2 hstrict1 hstrict2
  unfold generate_syscall_table_of_lines
  rw [heq]

/-- Claim C10 witness: swapping the two define lines of a header with
distinct names leaves the serialized output unchanged. -/
theorem line_order_irrelevant_witness :
    generate_syscall_table_of_lines
        ["#define __NR_write 1", "#define __NR_read 0"] =
      generate_syscall_table_of_lines
        ["#define __NR_read 0", "#define __NR_write 1"] :=
  line_order_irrelevant _ _ (List.Perm.swap _ _ _) (by decide)

end RustVmmGen
